import Mathlib

/-!
Verification development for the FinFlow recurring-transaction detection
engine and its subscription override store.

The definitions below are a shallow embedding of the TypeScript source:

* `src/lib/recurring-detector.ts` — merchant-name normalizer, similarity
  and amount policies, frequency classifier, and the recurring-group
  builder `detectRecurringTransactions`;
* `src/lib/subscription-manager.ts` — the UserSubscription override store
  (`addSubscriptionFromTransaction`, `addSubscriptionFromVendor`,
  `confirmSubscription`, `removeSubscription`).

Modelling conventions:

* JavaScript numbers are modelled by `ℚ`.  Division by zero follows the
  Lean convention `x / 0 = 0`; in the one place where the source can
  divide by zero (`areAmountsSimilar` with two zero amounts, where
  JavaScript produces `NaN` and every comparison with it is false) the
  zero-denominator case is modelled explicitly.
* JavaScript `Date` values are modelled as whole days since the Unix
  epoch (an `ℤ`); transaction timestamps are taken at midnight, so
  `Math.floor(|t1 - t2| / 86400000)` is exactly `|d1 - d2|`.
  `setMonth`/`setFullYear` re-normalisation (the `MakeDay` ECMAScript
  operation) is modelled by the civil-calendar conversions below.
* Strings are ASCII for the purposes of `toLowerCase` and the regular
  expressions (the source's merchant data is ASCII apart from `€`,
  which is handled explicitly); the regexes of the normalizer are
  embedded as explicit scanners with the exact JavaScript semantics of
  `String.replace` with a global pattern (leftmost match, restart after
  the match, `\b` evaluated against the original neighbouring character).
* The persisted Dexie table `db.userSubscriptions` is modelled as a list
  of rows; `put` is upsert-by-id, `add` is insert (it can only be
  reached in states where the id is absent, see `removeSubscription`).
-/

/-! ### Character and string utilities -/

/-- Whitespace test for the JavaScript `\s` class (ASCII part). -/
def isSpaceChar (c : Char) : Bool :=
  c == ' ' || c == '\t' || c == '\n' || c == '\r' || c == '\x0b' || c == '\x0c'

/-- ASCII lower-casing, the fragment of `String.prototype.toLowerCase`
exercised by merchant descriptions. -/
def lowerChar (c : Char) : Char :=
  if 'A' ≤ c && c ≤ 'Z' then Char.ofNat (c.toNat + 32) else c

def isDigitChar (c : Char) : Bool := '0' ≤ c && c ≤ '9'

def isLowerAlpha (c : Char) : Bool := 'a' ≤ c && c ≤ 'z'

def isAlnumLower (c : Char) : Bool := isLowerAlpha c || isDigitChar c

/-- The regex word-character class `\w` (`[A-Za-z0-9_]`). -/
def isWordChar (c : Char) : Bool :=
  isLowerAlpha c || ('A' ≤ c && c ≤ 'Z') || isDigitChar c || c == '_'

def isWordCharO : Option Char → Bool
  | none => false
  | some c => isWordChar c

/-- JavaScript `String.prototype.trim` (ASCII whitespace). -/
def trimChars (s : List Char) : List Char :=
  ((s.dropWhile isSpaceChar).reverse.dropWhile isSpaceChar).reverse

/-- Tests whether `pat` occurs at the very start of `s`. -/
def leadsWith : List Char → List Char → Bool
  | [], _ => true
  | _ :: _, [] => false
  | p :: ps, c :: cs => p == c && leadsWith ps cs

/-- Tests whether `pat` occurs anywhere in `s` (JavaScript
`String.prototype.includes`). -/
def containsSub (pat : List Char) : List Char → Bool
  | [] => leadsWith pat []
  | c :: cs => leadsWith pat (c :: cs) || containsSub pat cs

/-- Greedy run of characters satisfying `p`: its length and the rest. -/
def spanCount (p : Char → Bool) (s : List Char) : ℕ × List Char :=
  ((s.takeWhile p).length, s.dropWhile p)

/-- Ordered regex alternation with a common continuation: try each
keyword in order; on the first one that is a prefix of `s` whose
continuation also matches, return the total matched length. -/
def firstAlt (cont : List Char → Option ℕ) (s : List Char) : List (List Char) → Option ℕ
  | [] => none
  | kw :: rest =>
    if leadsWith kw s then
      match cont (s.drop kw.length) with
      | some n => some (kw.length + n)
      | none => firstAlt cont s rest
    else firstAlt cont s rest

/-! ### The global-replace scanner

`scanGo` models `s.replace(pattern, '')` for a global pattern with no
empty matches: walk left to right, at each position try the matcher on
the remaining suffix (subject to a `\b` boundary against the previous
original character when `needBoundary` is set), drop the matched span,
and keep scanning after it.  `fuel` only needs to be `s.length` since
every step consumes at least one character. -/

def scanGo (m : List Char → Option ℕ) (needBoundary : Bool) :
    ℕ → Option Char → List Char → List Char
  | 0, _, s => s
  | _ + 1, _, [] => []
  | fuel + 1, prev, c :: rest =>
    let canMatch := !needBoundary || !isWordCharO prev
    match (if canMatch then m (c :: rest) else none) with
    | some k =>
      if k == 0 then c :: scanGo m needBoundary fuel (some c) rest
      else scanGo m needBoundary fuel ((c :: rest)[k - 1]?) ((c :: rest).drop k)
    | none => c :: scanGo m needBoundary fuel (some c) rest

def scanReplace (m : List Char → Option ℕ) (needBoundary : Bool) (s : List Char) : List Char :=
  scanGo m needBoundary s.length none s

/-! ### The individual patterns of `normalizeMerchantName` -/

/-- Continuation `:\s*[a-z0-9]+` of the IBAN/BIC pattern. -/
def contKeyVal (s : List Char) : Option ℕ :=
  match s with
  | ':' :: t2 =>
    let sp := spanCount isSpaceChar t2
    let al := spanCount isAlnumLower sp.2
    if al.1 == 0 then none else some (1 + sp.1 + al.1)
  | _ => none

/-- Matcher for `\b(iban|bic):\s*[a-z0-9]+` (the `\b` is checked by the
scanner); the input is already lower-cased, subsuming the `i` flag. -/
def matchIban (s : List Char) : Option ℕ :=
  firstAlt contKeyVal s ["iban".data, "bic".data]

/-- Matcher for `\b\d{2}[./]\d{2}[./]\d{4}\b` (leading `\b` checked by
the scanner, trailing `\b` checked here). -/
def matchDate : List Char → Option ℕ
  | d1 :: d2 :: s1 :: d3 :: d4 :: s2 :: y1 :: y2 :: y3 :: y4 :: rest =>
    if isDigitChar d1 && isDigitChar d2 && (s1 == '.' || s1 == '/') &&
        isDigitChar d3 && isDigitChar d4 && (s2 == '.' || s2 == '/') &&
        isDigitChar y1 && isDigitChar y2 && isDigitChar y3 && isDigitChar y4 &&
        (match rest with | [] => true | r :: _ => !isWordChar r) then
      some 10
    else none
  | _ => none

/-- Continuation `[:.\s]*[a-z0-9-]+` of the reference-number pattern. -/
def contRefTail (s : List Char) : Option ℕ :=
  let sp := spanCount (fun c => c == ':' || c == '.' || isSpaceChar c) s
  let al := spanCount (fun c => isAlnumLower c || c == '-') sp.2
  if al.1 == 0 then none else some (sp.1 + al.1)

/-- Matcher for `\b(ref|reference|order|transaction)[:.\s]*[a-z0-9-]+`. -/
def matchRef (s : List Char) : Option ℕ :=
  firstAlt contRefTail s ["ref".data, "reference".data, "order".data, "transaction".data]

/-- Matcher for `[+-]?\d+[.,]\d{2}\s*€?` (no boundary assertions). -/
def matchAmount (s : List Char) : Option ℕ :=
  let sgn : ℕ × List Char :=
    match s with
    | c :: r => if c == '+' || c == '-' then (1, r) else (0, s)
    | [] => (0, s)
  let ds := spanCount isDigitChar sgn.2
  if ds.1 == 0 then none else
  match ds.2 with
  | c :: t3 =>
    if c == '.' || c == ',' then
      match t3 with
      | a :: b :: t4 =>
        if isDigitChar a && isDigitChar b then
          let sp := spanCount isSpaceChar t4
          let eu : ℕ := match sp.2 with
            | e :: _ => if e == '€' then 1 else 0
            | [] => 0
          some (sgn.1 + ds.1 + 1 + 2 + sp.1 + eu)
        else none
      | _ => none
    else none
  | [] => none

/-- Continuation `\s*`, which always succeeds. -/
def contSpaces (s : List Char) : Option ℕ := some (spanCount isSpaceChar s).1

/-- Anchored strip of `/^(mastercard|lastschriften|gutschriften|belastungen)\s*/`
(a `^`-anchored global pattern replaces at most once, at position 0). -/
def stripPrefixKeyword (s : List Char) : List Char :=
  match firstAlt contSpaces s
      ["mastercard".data, "lastschriften".data, "gutschriften".data, "belastungen".data] with
  | some k => s.drop k
  | none => s

/-- Replaces each whitespace run with the single character `out`
(JavaScript `replace(/\s+/g, out)`); the flag records whether the
previous character was part of a whitespace run. -/
def runCollapse (out : Char) : Bool → List Char → List Char
  | _, [] => []
  | prevSpace, c :: rest =>
    if isSpaceChar c then
      if prevSpace then runCollapse out true rest
      else out :: runCollapse out true rest
    else c :: runCollapse out false rest

def collapseSpaces (s : List Char) : List Char := runCollapse ' ' false s

/-- JavaScript `split(' ')` (split on the exact space character,
keeping empty pieces; the empty string splits to `[""]`). -/
def splitOnSpace : List Char → List (List Char)
  | [] => [[]]
  | c :: rest =>
    match splitOnSpace rest with
    | w :: ws => if c == ' ' then [] :: w :: ws else (c :: w) :: ws
    | [] => [[]]

/-- JavaScript `join(' ')`. -/
def joinSpace : List (List Char) → List Char
  | [] => []
  | [w] => w
  | w :: w2 :: ws => w ++ ' ' :: joinSpace (w2 :: ws)

/-- Embedding of `normalizeMerchantName` (recurring-detector.ts:44-72):
lower-case and trim, strip N26 prefixes, IBAN/BIC fragments, dates,
reference numbers and amounts, collapse whitespace, and keep at most the
first three space-separated words. -/
def normalizeMerchantName (description : String) : String :=
  let n0 := trimChars (description.data.map lowerChar)
  let n1 := stripPrefixKeyword n0
  let n2 := scanReplace matchIban true n1
  let n3 := scanReplace matchDate true n2
  let n4 := scanReplace matchRef true n3
  let n5 := scanReplace matchAmount false n4
  let n6 := trimChars (collapseSpaces n5)
  let ws := splitOnSpace n6
  if ws.length > 3 then ⟨joinSpace (ws.take 3)⟩ else ⟨n6⟩

/-! ### Calendar model

JavaScript `Date` values are modelled as whole days since 1970-01-01.
`daysFromCivil`/`civilFromDays` are the standard civil-calendar
conversions (the ECMAScript `MakeDay`/date-decomposition semantics);
`daysFromCivil` accepts arbitrary (possibly out-of-range) month and day
fields and re-normalises them exactly as `MakeDay` does. -/

/-- Day number of the civil date (`y`, `m`, `d`) with `m` 0-based
(January = 0); out-of-range `m` and `d` roll over like `Date.setMonth`
and `Date.setDate`. -/
def daysFromCivil (y m d : ℤ) : ℤ :=
  let y1 := y + Int.fdiv m 12
  let m1 := Int.emod m 12
  let y2 := if m1 ≤ 1 then y1 - 1 else y1
  let era := Int.fdiv y2 400
  let yoe := y2 - era * 400
  let mp := (m1 + 10) % 12
  let doy := Int.fdiv (153 * mp + 2) 5 + d - 1
  let doe := yoe * 365 + Int.fdiv yoe 4 - Int.fdiv yoe 100 + doy
  era * 146097 + doe - 719468

/-- Decomposition of a day number into (year, 0-based month, day). -/
def civilFromDays (z : ℤ) : ℤ × ℤ × ℤ :=
  let z1 := z + 719468
  let era := Int.fdiv z1 146097
  let doe := z1 - era * 146097
  let yoe := Int.fdiv (doe - Int.fdiv doe 1460 + Int.fdiv doe 36524 - Int.fdiv doe 146096) 365
  let y := yoe + era * 400
  let doy := doe - (365 * yoe + Int.fdiv yoe 4 - Int.fdiv yoe 100)
  let mp := Int.fdiv (5 * doy + 2) 153
  let d := doy - Int.fdiv (153 * mp + 2) 5 + 1
  let m := if mp < 10 then mp + 2 else mp - 10
  (if m ≤ 1 then y + 1 else y, m, d)

/-! ### Data model -/

inductive Frequency
  | weekly
  | monthly
  | yearly
deriving DecidableEq

def freqToString : Frequency → String
  | .weekly => "weekly"
  | .monthly => "monthly"
  | .yearly => "yearly"

/-- Embedding of the `Transaction` interface (types/index.ts), restricted
to the fields the detection engine reads, plus the annotations the
detection pass writes back (spec §3). -/
structure Transaction where
  id : String
  description : String
  date : ℤ
  amount : ℚ
  currency : String
  category : String
  type : String
  merchantName : Option String := none
  isRecurring : Bool := false
  recurringGroupId : Option String := none
  recurringFrequency : Option Frequency := none
deriving DecidableEq

/-- Embedding of the `RecurringTransactionGroup` interface. -/
structure RecurringTransactionGroup where
  id : String
  merchantName : String
  category : String
  averageAmount : ℚ
  frequency : Frequency
  transactions : List Transaction
  isSubscription : Bool
  nextExpectedDate : Option ℤ
  lastTransactionDate : ℤ
  variance : ℚ
deriving DecidableEq

/-- Embedding of the persisted `UserSubscription` row
(subscription-manager.ts); `createdAt`/`updatedAt` are day stamps. -/
structure UserSubscription where
  id : String
  merchantName : String
  category : String
  amount : ℚ
  frequency : Frequency
  transactionIds : List String
  isConfirmed : Bool
  isHidden : Bool
  createdAt : ℤ
  updatedAt : ℤ
deriving DecidableEq

/-! ### Detector: keyword policies and the scalar helpers -/

/-- recurring-detector.ts:4-13. -/
def KNOWN_SUBSCRIPTIONS : List String :=
  ["spotify", "netflix", "amazon prime", "amazon", "prime video", "disney", "hbo", "apple",
   "youtube", "google", "microsoft", "adobe", "dropbox", "icloud",
   "gym", "fitness", "mcfit", "fitnessstudio",
   "insurance", "versicherung", "barmer", "tk", "aok", "allianz", "mcv",
   "internet", "telekom", "vodafone", "o2", "1&1", "unitymedia", "telefonica",
   "miete", "rent", "vermietung", "landlord",
   "navigo", "bvg", "deutschlandticket",
   "n26 ratenzahlung", "ratenzahlung", "installment"]

/-- recurring-detector.ts:16-21. -/
def EXCLUDED_CATEGORIES : List String :=
  ["Groceries", "Shopping", "Bars & Restaurants", "Other"]

/-- recurring-detector.ts:24-31. -/
def TRANSPORT_SUBSCRIPTIONS : List String :=
  ["navigo", "bvg", "deutschlandticket", "klimaticket", "mvg", "hvv"]

/-- recurring-detector.ts:34-38. -/
def NON_SUBSCRIPTION_KEYWORDS : List String :=
  ["rewe", "edeka", "aldi", "lidl", "penny", "netto", "kaufland",
   "restaurant", "cafe", "bar", "burger", "pizza", "mcdonald",
   "uber", "taxi", "bvg", "transport", "tankstelle", "shell", "aral"]

/-- JavaScript `s.includes(pat)`. -/
def containsStr (s pat : String) : Bool := containsSub pat.data s.data

def lowerStr (s : String) : String := ⟨s.data.map lowerChar⟩

/-- Embedding of `calculateSimilarity` (recurring-detector.ts:77-99). -/
def calculateSimilarity (name1 name2 : String) : ℚ :=
  let s1 := lowerStr name1
  let s2 := lowerStr name2
  if s1 == s2 then 1
  else if containsStr s1 s2 || containsStr s2 s1 then 8 / 10
  else
    let words1 := splitOnSpace s1.data
    let words2 := splitOnSpace s2.data
    let commonWords := words1.filter fun w => words2.contains w && decide (w.length > 2)
    if commonWords.length > 0 then
      1 / 2 + ((commonWords.length : ℚ) / ((max words1.length words2.length : ℕ) : ℚ)) * (1 / 2)
    else 0

/-- Embedding of `daysDifference` (recurring-detector.ts:104-107): with
dates at day granularity, `floor(|ms difference| / 86400000)` is exactly
the absolute day difference. -/
def daysDifference (date1 date2 : ℤ) : ℤ := |date1 - date2|

/-- Embedding of `areAmountsSimilar` (recurring-detector.ts:112-117).
When both amounts are zero JavaScript computes `NaN <= threshold`,
which is false; that zero-denominator case is modelled explicitly. -/
def areAmountsSimilar (amount1 amount2 : ℚ) (isSubscription : Bool) : Bool :=
  let threshold : ℚ := if isSubscription then 10 / 100 else 20 / 100
  let diff := |amount1 - amount2|
  let avg := (|amount1| + |amount2|) / 2
  decide (avg ≠ 0 ∧ diff / avg ≤ threshold)

/-- Embedding of `isLikelySubscription` (recurring-detector.ts:122-137). -/
def isLikelySubscription (merchantName category : String) : Bool :=
  let name := lowerStr merchantName
  if EXCLUDED_CATEGORIES.contains category then false
  else if NON_SUBSCRIPTION_KEYWORDS.any (fun keyword => containsStr name keyword) then false
  else KNOWN_SUBSCRIPTIONS.any (fun sub => containsStr name sub)

/-- Embedding of `isLastschrift` (recurring-detector.ts:142-144). -/
def isLastschrift (description : String) : Bool :=
  containsStr (lowerStr description) "lastschrift"

/-- Maximum of a list of rationals (`Math.max(...)`, callers guarantee a
non-empty argument). -/
def listMax : List ℚ → ℚ
  | [] => 0
  | [x] => x
  | x :: y :: rest => max x (listMax (y :: rest))

/-- Minimum of a list of rationals (`Math.min(...)`). -/
def listMin : List ℚ → ℚ
  | [] => 0
  | [x] => x
  | x :: y :: rest => min x (listMin (y :: rest))

/-- Embedding of `detectFrequency` (recurring-detector.ts:149-171). -/
def detectFrequency (intervals : List ℤ) : Option Frequency :=
  if intervals.length < 2 then none else
  let avgInterval : ℚ := ((intervals.map fun i => (i : ℚ)).sum) / (intervals.length : ℚ)
  let maxDeviation : ℚ := listMax (intervals.map fun i => |(i : ℚ) - avgInterval|)
  if 3 ≤ avgInterval ∧ avgInterval ≤ 14 ∧ maxDeviation ≤ 10 then some .weekly
  else if 23 ≤ avgInterval ∧ avgInterval ≤ 38 ∧ maxDeviation ≤ 12 then some .monthly
  else if 340 ≤ avgInterval ∧ avgInterval ≤ 390 ∧ maxDeviation ≤ 30 then some .yearly
  else none

/-- The frequency decision of the builder: `detectFrequency` plus the
relaxed single-gap fallback for two-transaction groups, exactly as
inlined at recurring-detector.ts:270-286. -/
def detectFrequencyWithFallback (intervals : List ℤ) (numTransactions : ℕ) : Option Frequency :=
  match detectFrequency intervals with
  | some f => some f
  | none =>
    if numTransactions = 2 ∧ intervals.length = 1 then
      let interval := intervals.headD 0
      if 20 ≤ interval ∧ interval ≤ 40 then some .monthly
      else if 340 ≤ interval ∧ interval ≤ 400 then some .yearly
      else if 3 ≤ interval ∧ interval ≤ 15 then some .weekly
      else none
    else none

/-- Embedding of `calculateNextExpectedDate` (recurring-detector.ts:176-192):
`setDate(+7)` adds exactly seven days; `setMonth(+1)`/`setFullYear(+1)`
bump the civil month/year field and re-normalise via `MakeDay`. -/
def calculateNextExpectedDate (lastDate : ℤ) : Frequency → ℤ
  | .weekly => lastDate + 7
  | .monthly =>
    let c := civilFromDays lastDate
    daysFromCivil c.1 (c.2.1 + 1) c.2.2
  | .yearly =>
    let c := civilFromDays lastDate
    daysFromCivil (c.1 + 1) c.2.1 c.2.2

/-! ### Detector: clustering and the group builder -/

/-- Models `merchantName.replace(/\s+/g, '-')` (recurring-detector.ts:312). -/
def slugMerchant (m : String) : String := ⟨runCollapse '-' false m.data⟩

/-- The deterministic group id
`slug(merchantName) + "_" + frequency + "_" + round(averageAmount*100)`
(recurring-detector.ts:312; also subscription-manager.ts:93 for
vendor-derived ids). -/
def groupIdOf (merchantName : String) (frequency : Frequency) (averageAmount : ℚ) : String :=
  slugMerchant merchantName ++ "_" ++ freqToString frequency ++ "_" ++
    toString (round (averageAmount * 100))

/-- The amount component of a clustering key, modelling
`Math.abs(amount).toFixed(2)` as rounding to cents. -/
def toFixedKey (q : ℚ) : ℤ := round (q * 100)

/-- `Map.set` semantics over an insertion-ordered association list:
overwriting an existing key keeps its position, a new key is appended. -/
def setMapEntry (key : String × ℤ) (val : List Transaction) :
    List ((String × ℤ) × List Transaction) → List ((String × ℤ) × List Transaction)
  | [] => [(key, val)]
  | (k, v) :: rest =>
    if k == key then (k, val) :: rest else (k, v) :: setMapEntry key val rest

/-- One step of the greedy clustering loop (recurring-detector.ts:220-233):
scan the open clusters in creation order and append the transaction to
the first cluster whose seed is similar enough with a similar amount. -/
def tryJoinGroup (t : Transaction) (merchantName : String) :
    List ((String × ℤ) × List Transaction) → Option (List ((String × ℤ) × List Transaction))
  | [] => none
  | (k, groupTransactions) :: rest =>
    match groupTransactions.head? with
    | none =>
      match tryJoinGroup t merchantName rest with
      | some rest2 => some ((k, groupTransactions) :: rest2)
      | none => none
    | some firstTransaction =>
      let similarity := calculateSimilarity merchantName (firstTransaction.merchantName.getD "")
      let isSubscription := isLikelySubscription merchantName t.category
      if decide ((7 / 10 : ℚ) ≤ similarity) &&
          areAmountsSimilar t.amount firstTransaction.amount isSubscription then
        some ((k, groupTransactions ++ [t]) :: rest)
      else
        match tryJoinGroup t merchantName rest with
        | some rest2 => some ((k, groupTransactions) :: rest2)
        | none => none

/-- The clustering loop of `detectRecurringTransactions`
(recurring-detector.ts:210-239) over the insertion-ordered map of
potential groups. -/
def buildGroups : List Transaction → List ((String × ℤ) × List Transaction) →
    List ((String × ℤ) × List Transaction)
  | [], acc => acc
  | t :: rest, acc =>
    let merchantName := t.merchantName.getD ""
    if merchantName.length < 3 then buildGroups rest acc
    else
      match tryJoinGroup t merchantName acc with
      | some acc2 => buildGroups rest acc2
      | none => buildGroups rest (setMapEntry (merchantName, toFixedKey |t.amount|) [t] acc)

/-- Stable insertion of a transaction into a date-ascending list
(the JavaScript stable `sort` with comparator `a.date - b.date`). -/
def insertByDate (t : Transaction) : List Transaction → List Transaction
  | [] => [t]
  | u :: us => if u.date < t.date then u :: insertByDate t us else t :: u :: us

def sortByDate : List Transaction → List Transaction
  | [] => []
  | t :: ts => insertByDate t (sortByDate ts)

/-- Stable insertion into an averageAmount-descending list (the final
`sort((a, b) => b.averageAmount - a.averageAmount)`). -/
def insertByAmountDesc (g : RecurringTransactionGroup) :
    List RecurringTransactionGroup → List RecurringTransactionGroup
  | [] => [g]
  | u :: us => if g.averageAmount < u.averageAmount then u :: insertByAmountDesc g us
               else g :: u :: us

def sortGroupsByAmountDesc : List RecurringTransactionGroup → List RecurringTransactionGroup
  | [] => []
  | g :: gs => insertByAmountDesc g (sortGroupsByAmountDesc gs)

/-- Day gaps between consecutive transactions
(recurring-detector.ts:263-267). -/
def gapsOf : List Transaction → List ℤ
  | [] => []
  | [_] => []
  | a :: b :: rest => daysDifference b.date a.date :: gapsOf (b :: rest)

/-- The record constructed for one surviving cluster
(recurring-detector.ts:288-332): statistics, classification, the
deterministic id, the write-back annotations on the member transactions,
and the projected next occurrence. -/
def mkGroup (sorted : List Transaction) (lastTransaction : Transaction)
    (merchantName : String) (finalFrequency : Frequency) : RecurringTransactionGroup :=
  let amounts := sorted.map fun t => |t.amount|
  let averageAmount := amounts.sum / (amounts.length : ℚ)
  let maxAmount := listMax amounts
  let minAmount := listMin amounts
  let variance := ((maxAmount - minAmount) / averageAmount) * 100
  let isInKnownList := isLikelySubscription merchantName lastTransaction.category
  let hasLowVariance := decide (variance < 10)
  let isDirectDebit := sorted.any fun t => isLastschrift t.description
  let isSubscription := isInKnownList || isDirectDebit ||
    (hasLowVariance && (finalFrequency == .monthly || finalFrequency == .yearly))
  let groupId := groupIdOf merchantName finalFrequency averageAmount
  { id := groupId
    merchantName := merchantName
    category := lastTransaction.category
    averageAmount := averageAmount
    frequency := finalFrequency
    transactions := sorted.map fun t =>
      { t with isRecurring := true, recurringGroupId := some groupId,
               recurringFrequency := some finalFrequency, merchantName := some merchantName }
    isSubscription := isSubscription
    nextExpectedDate := some (calculateNextExpectedDate lastTransaction.date finalFrequency)
    lastTransactionDate := lastTransaction.date
    variance := variance }

/-- Analysis of one candidate cluster (recurring-detector.ts:244-333):
minimum size, category exclusion with the transport allow-list
exception, frequency inference, then `mkGroup`. -/
def analyzeGroup (transactions : List Transaction) : Option RecurringTransactionGroup :=
  if transactions.length < 2 then none else
  let sorted := sortByDate transactions
  match sorted.getLast? with
  | none => none
  | some lastTransaction =>
    let merchantName :=
      match lastTransaction.merchantName with
      | some m => if m == "" then normalizeMerchantName lastTransaction.description else m
      | none => normalizeMerchantName lastTransaction.description
    let isTransportSubscription := lastTransaction.category == "Transport" &&
      TRANSPORT_SUBSCRIPTIONS.any fun sub => containsStr merchantName sub
    if EXCLUDED_CATEGORIES.contains lastTransaction.category && !isTransportSubscription then none
    else
      match detectFrequencyWithFallback (gapsOf sorted) sorted.length with
      | none => none
      | some finalFrequency => some (mkGroup sorted lastTransaction merchantName finalFrequency)

/-- Embedding of `detectRecurringTransactions` (recurring-detector.ts:197-339). -/
def detectRecurringTransactions (allTransactions : List Transaction) :
    List RecurringTransactionGroup :=
  let expenses := allTransactions.filter fun t => t.type == "expense"
  let transactionsWithMerchant := expenses.map fun t =>
    { t with merchantName := some (normalizeMerchantName t.description) }
  let potentialGroups := buildGroups transactionsWithMerchant []
  let recurringGroups := (potentialGroups.map fun kv => kv.2).filterMap analyzeGroup
  sortGroupsByAmountDesc recurringGroups

/-! ### The subscription override store (subscription-manager.ts)

The Dexie table is a list of rows; `dbGet` and `dbPut` are keyed on the
primary key `id`. -/

def dbGet (id : String) (store : List UserSubscription) : Option UserSubscription :=
  store.find? fun s => s.id == id

/-- Upsert by primary key (`db.userSubscriptions.put`). -/
def dbPut (sub : UserSubscription) (store : List UserSubscription) : List UserSubscription :=
  if store.any (fun s => s.id == sub.id) then
    store.map fun s => if s.id == sub.id then sub else s
  else store ++ [sub]

/-- Embedding of `addSubscriptionFromTransaction`
(subscription-manager.ts:9-30); `uuid` stands for `crypto.randomUUID()`
and `now` for `new Date()`.  `db.userSubscriptions.add` rejects an
already-present id (Dexie `ConstraintError`). -/
def addSubscriptionFromTransaction (uuid : String) (transaction : Transaction)
    (frequency : Frequency) (now : ℤ) (store : List UserSubscription) :
    Except String (List UserSubscription × UserSubscription) :=
  let merchantName :=
    match transaction.merchantName with
    | some m => if m == "" then transaction.description else m
    | none => transaction.description
  let subscription : UserSubscription :=
    { id := uuid, merchantName := merchantName, category := transaction.category,
      amount := transaction.amount, frequency := frequency,
      transactionIds := [transaction.id], isConfirmed := false, isHidden := false,
      createdAt := now, updatedAt := now }
  if (dbGet uuid store).isSome then Except.error "ConstraintError"
  else Except.ok (store ++ [subscription], subscription)

/-- Embedding of `detectFrequencyFromTransactions`
(subscription-manager.ts:35-65). -/
def detectFrequencyFromTransactions (transactions : List Transaction) : Frequency :=
  if transactions.length < 2 then .monthly else
  let sorted := sortByDate transactions
  let intervals := gapsOf sorted
  let avgInterval : ℚ := ((intervals.map fun i => (i : ℚ)).sum) / (intervals.length : ℚ)
  if 3 ≤ avgInterval ∧ avgInterval ≤ 14 then .weekly
  else if 300 ≤ avgInterval then .yearly
  else .monthly

/-- One step of the category tally (`categoryCount`), keys kept in first
appearance order like JavaScript object keys. -/
def bumpCategory (cat : String) : List (String × ℕ) → List (String × ℕ)
  | [] => [(cat, 1)]
  | (c, n) :: rest => if c == cat then (c, n + 1) :: rest else (c, n) :: bumpCategory cat rest

def countCategories (transactions : List Transaction) : List (String × ℕ) :=
  transactions.foldl (fun acc t => bumpCategory t.category acc) []

/-- Stable descending sort by count (`sort((a, b) => b[1] - a[1])`). -/
def insertByCountDesc (p : String × ℕ) : List (String × ℕ) → List (String × ℕ)
  | [] => [p]
  | q :: qs => if p.2 < q.2 then q :: insertByCountDesc p qs else p :: q :: qs

def sortByCountDesc : List (String × ℕ) → List (String × ℕ)
  | [] => []
  | p :: ps => insertByCountDesc p (sortByCountDesc ps)

/-- Embedding of `addSubscriptionFromVendor` (subscription-manager.ts:70-110):
fails fast on an empty transaction list, otherwise computes the average
absolute amount, auto-detects the frequency, picks the most common
category, builds the deterministic vendor id and upserts. -/
def addSubscriptionFromVendor (vendorName : String) (transactions : List Transaction)
    (now : ℤ) (store : List UserSubscription) :
    Except String (List UserSubscription × UserSubscription) :=
  if transactions.length = 0 then Except.error "No transactions provided"
  else
    let totalAmount := (transactions.map fun t => |t.amount|).sum
    let averageAmount := totalAmount / (transactions.length : ℚ)
    let frequency := detectFrequencyFromTransactions transactions
    let category := ((sortByCountDesc (countCategories transactions)).headD ("", 0)).1
    let subscriptionId := groupIdOf vendorName frequency averageAmount
    let subscription : UserSubscription :=
      { id := subscriptionId, merchantName := vendorName, category := category,
        amount := averageAmount, frequency := frequency,
        transactionIds := transactions.map fun t => t.id,
        isConfirmed := false, isHidden := false, createdAt := now, updatedAt := now }
    Except.ok (dbPut subscription store, subscription)

/-- Embedding of `confirmSubscription` (subscription-manager.ts:115-133). -/
def confirmSubscription (group : RecurringTransactionGroup) (now : ℤ)
    (store : List UserSubscription) : List UserSubscription × UserSubscription :=
  let subscription : UserSubscription :=
    { id := group.id, merchantName := group.merchantName, category := group.category,
      amount := group.averageAmount, frequency := group.frequency,
      transactionIds := group.transactions.map fun t => t.id,
      isConfirmed := true, isHidden := false, createdAt := now, updatedAt := now }
  (dbPut subscription store, subscription)

/-- Embedding of `removeSubscription` (subscription-manager.ts:138-162):
an existing row is soft-hidden via `put`; a missing id gets a fresh
hidden placeholder row via `add` (which cannot fail here, since `get`
just returned nothing for that id). -/
def removeSubscription (subscriptionId : String) (now : ℤ)
    (store : List UserSubscription) : List UserSubscription :=
  match dbGet subscriptionId store with
  | some subscription => dbPut { subscription with isHidden := true, updatedAt := now } store
  | none =>
    store ++ [{ id := subscriptionId, merchantName := "", category := "", amount := 0,
                frequency := .monthly, transactionIds := [], isConfirmed := false,
                isHidden := true, createdAt := now, updatedAt := now }]

/-- The user-facing mutations of claim C2, in call order. -/
inductive SubscriptionOp
  | confirm (group : RecurringTransactionGroup) (now : ℤ)
  | remove (id : String) (now : ℤ)

def applyOp (store : List UserSubscription) : SubscriptionOp → List UserSubscription
  | .confirm group now => (confirmSubscription group now store).1
  | .remove id now => removeSubscription id now store

def applyOps (ops : List SubscriptionOp) (store : List UserSubscription) :
    List UserSubscription :=
  ops.foldl applyOp store

/-- Number of stored rows carrying a given id. -/
def countId (id : String) (store : List UserSubscription) : ℕ :=
  (store.filter fun s => s.id == id).length

def txA1 : Transaction :=
  { id := "a1", description := "Netflix Subscription", date := daysFromCivil 2024 0 15,
    amount := -1599/100, currency := "EUR", category := "Entertainment", type := "expense" }

def txA2 : Transaction := { txA1 with id := "a2", date := daysFromCivil 2024 1 15 }

def txA3 : Transaction := { txA1 with id := "a3", date := daysFromCivil 2024 2 15 }

def scenarioA : List Transaction := [txA1, txA2, txA3]

/-! ### Claim-side definitions -/

/-- The frequency classifier exactly as worded in spec §4.3 / claim C3:
mean gap and max absolute deviation, the weekly/monthly/yearly bands
checked in that order, then — when none match and the group has exactly
two transactions (one gap) — the relaxed single-gap inference in the
order monthly, yearly, weekly. -/
def frequencyClassifierSpec (gaps : List ℤ) (numTransactions : ℕ) : Option Frequency :=
  let mean : ℚ := ((gaps.map fun g => (g : ℚ)).sum) / (gaps.length : ℚ)
  let dev : ℚ := listMax (gaps.map fun g => |(g : ℚ) - mean|)
  if 3 ≤ mean ∧ mean ≤ 14 ∧ dev ≤ 10 then some .weekly
  else if 23 ≤ mean ∧ mean ≤ 38 ∧ dev ≤ 12 then some .monthly
  else if 340 ≤ mean ∧ mean ≤ 390 ∧ dev ≤ 30 then some .yearly
  else if numTransactions = 2 ∧ gaps.length = 1 then
    let g := gaps.headD 0
    if 20 ≤ g ∧ g ≤ 40 then some .monthly
    else if 340 ≤ g ∧ g ≤ 400 then some .yearly
    else if 3 ≤ g ∧ g ≤ 15 then some .weekly
    else none
  else none

/-- Keywords that can trigger any of the normalizer's removal patterns:
the four N26 prefixes, the IBAN/BIC labels and the reference labels
(`reference` is subsumed by `ref`). -/
def REMOVER_TOKENS : List String :=
  ["mastercard", "lastschriften", "gutschriften", "belastungen",
   "iban", "bic", "ref", "order", "transaction"]

/-- A single lower-case alphabetic word. -/
def plainWord (w : List Char) : Bool := !w.isEmpty && w.all isLowerAlpha

/-- The class of descriptions for which the amended claim C4 proves the
normalizer idempotent: non-empty lower-case alphabetic words separated
by single spaces, containing none of the remover keywords (hence no
digits, so the date and amount patterns cannot fire either). -/
def plainDescription (s : String) : Bool :=
  (splitOnSpace s.data).all plainWord &&
    REMOVER_TOKENS.all fun kw => !containsSub kw.data s.data

/-! ### Concrete inputs for the witnesses -/

def fallbackGroup : RecurringTransactionGroup :=
  { id := "", merchantName := "", category := "", averageAmount := 0,
    frequency := .monthly, transactions := [], isSubscription := false,
    nextExpectedDate := none, lastTransactionDate := 0, variance := 0 }

def groupA : RecurringTransactionGroup :=
  (detectRecurringTransactions scenarioA).headD fallbackGroup

def opsC2 : List SubscriptionOp :=
  [.confirm groupA 0, .remove groupA.id 1, .confirm groupA 2]

def c8sub : UserSubscription :=
  { id := "uuid-1", merchantName := "Netflix Subscription", category := "Entertainment",
    amount := -1599/100, frequency := .monthly, transactionIds := ["a1"],
    isConfirmed := false, isHidden := false, createdAt := 0, updatedAt := 0 }

def c10row : UserSubscription :=
  { id := "gym-berlin_monthly_2500", merchantName := "", category := "", amount := 0,
    frequency := .monthly, transactionIds := [], isConfirmed := false, isHidden := true,
    createdAt := 5, updatedAt := 5 }

/-! ### Store lemmas -/

theorem countId_append (i : String) (store : List UserSubscription) (row : UserSubscription) :
    countId i (store ++ [row]) = countId i store + (if row.id == i then 1 else 0) := by
  by_cases h : row.id = i <;>
    simp [countId, List.filter_append, List.filter_cons, h]

theorem countId_map_id_preserving (f : UserSubscription → UserSubscription)
    (hf : ∀ s, (f s).id = s.id) (i : String) (store : List UserSubscription) :
    countId i (store.map f) = countId i store := by
  induction store with
  | nil => rfl
  | cons s rest ih =>
    simp only [List.map_cons, countId, List.filter_cons, hf] at *
    split <;> simp [ih]

theorem countId_zero_of_any_false (i : String) (store : List UserSubscription)
    (h : store.any (fun s => s.id == i) = false) : countId i store = 0 := by
  simp only [countId, List.length_eq_zero, List.filter_eq_nil_iff]
  intro a ha
  have := List.any_eq_false.mp h a ha
  simpa using this

theorem countId_dbPut_le (sub : UserSubscription) (store : List UserSubscription)
    (h : ∀ i, countId i store ≤ 1) (i : String) : countId i (dbPut sub store) ≤ 1 := by
  unfold dbPut
  split
  · rw [countId_map_id_preserving]
    · exact h i
    · intro s
      split
      · next hs => exact (beq_iff_eq.mp hs).symm
      · rfl
  · next hany =>
    rw [countId_append]
    split
    · next hid =>
      have h0 : countId i store = 0 := by
        apply countId_zero_of_any_false
        have : i = sub.id := (beq_iff_eq.mp hid).symm
        subst this
        exact Bool.eq_false_iff.mpr hany
      omega
    · simpa using h i

theorem countId_zero_of_dbGet_none (i : String) (store : List UserSubscription)
    (h : dbGet i store = none) : countId i store = 0 := by
  simp only [countId, List.length_eq_zero, List.filter_eq_nil_iff]
  intro a ha
  have := List.find?_eq_none.mp h a ha
  simpa using this

theorem countId_applyOp_le (s : List UserSubscription) (op : SubscriptionOp)
    (h : ∀ i, countId i s ≤ 1) (i : String) : countId i (applyOp s op) ≤ 1 := by
  cases op with
  | confirm g now => exact countId_dbPut_le _ _ h i
  | remove id now =>
    show countId i (removeSubscription id now s) ≤ 1
    unfold removeSubscription
    split
    · exact countId_dbPut_le _ _ h i
    · next hget =>
      rw [countId_append]
      split
      · next hid =>
        have h0 : countId i s = 0 := by
          have hii : id = i := beq_iff_eq.mp hid
          subst hii
          exact countId_zero_of_dbGet_none _ _ hget
        omega
      · simpa using h i

theorem countId_applyOps_le (ops : List SubscriptionOp) (s0 : List UserSubscription)
    (h : ∀ i, countId i s0 ≤ 1) (i : String) : countId i (applyOps ops s0) ≤ 1 := by
  induction ops generalizing s0 with
  | nil => exact h i
  | cons op rest ih =>
    have : applyOps (op :: rest) s0 = applyOps rest (applyOp s0 op) := rfl
    rw [this]
    exact ih (applyOp s0 op) fun j => countId_applyOp_le s0 op h j

/-! ### Claim C2 -/

/-- C2: any sequence of `confirmSubscription`/`removeSubscription` calls,
starting from a store with no duplicate ids (in particular the empty
store), leaves at most one `UserSubscription` row under every id —
confirming or hiding is idempotent and confirm-hide-confirm never
duplicates a row. -/
theorem subscription_store_no_duplicate_rows (ops : List SubscriptionOp)
    (s0 : List UserSubscription) (id : String) (h : ∀ i, countId i s0 ≤ 1) :
    countId id (applyOps ops s0) ≤ 1 :=
  countId_applyOps_le ops s0 h id

unseal Rat.add Rat.mul Rat.inv Rat.sub in
theorem subscription_store_no_duplicate_rows_witness :
    countId groupA.id (applyOps opsC2 []) ≤ 1 :=
  subscription_store_no_duplicate_rows opsC2 [] groupA.id (fun i => by simp [countId])

/-! ### Claim C9 -/

/-- C9: calling `addSubscriptionFromVendor` with an empty transaction
list fails with the descriptive error `"No transactions provided"`; no
store is produced, so the `UserSubscription` store is untouched. -/
theorem addSubscriptionFromVendor_empty_fails_fast (vendorName : String) (now : ℤ)
    (store : List UserSubscription) :
    addSubscriptionFromVendor vendorName [] now store =
      Except.error "No transactions provided" := rfl

/-! ### Claim C10 -/

/-- C10: `removeSubscription` on an id with no stored row does not fail;
it appends a hidden placeholder row under that id with empty
merchantName and category, amount 0, frequency monthly, empty
transactionIds, `isConfirmed = false` and `isHidden = true`. -/
theorem removeSubscription_missing_id_persists_hidden_placeholder
    (id : String) (now : ℤ) (store : List UserSubscription)
    (h : dbGet id store = none) :
    removeSubscription id now store =
      store ++ [{ id := id, merchantName := "", category := "", amount := 0,
                  frequency := .monthly, transactionIds := [], isConfirmed := false,
                  isHidden := true, createdAt := now, updatedAt := now }] := by
  unfold removeSubscription
  rw [h]

theorem removeSubscription_missing_id_persists_hidden_placeholder_witness :
    removeSubscription "gym-berlin_monthly_2500" 5 [] = [c10row] :=
  removeSubscription_missing_id_persists_hidden_placeholder "gym-berlin_monthly_2500" 5 [] rfl

/-! ### Detector lemmas -/

theorem mem_insertByAmountDesc {g u : RecurringTransactionGroup}
    {l : List RecurringTransactionGroup} :
    g ∈ insertByAmountDesc u l ↔ g = u ∨ g ∈ l := by
  induction l with
  | nil => simp [insertByAmountDesc]
  | cons x xs ih =>
    simp only [insertByAmountDesc]
    split
    · simp only [List.mem_cons, ih]
      tauto
    · exact List.mem_cons

theorem mem_sortGroupsByAmountDesc {g : RecurringTransactionGroup}
    {l : List RecurringTransactionGroup} :
    g ∈ sortGroupsByAmountDesc l ↔ g ∈ l := by
  induction l with
  | nil => simp [sortGroupsByAmountDesc]
  | cons x xs ih => simp [sortGroupsByAmountDesc, mem_insertByAmountDesc, ih]

theorem detect_mem_analyze {ts : List Transaction} {g : RecurringTransactionGroup}
    (h : g ∈ detectRecurringTransactions ts) : ∃ txs, analyzeGroup txs = some g := by
  simp only [detectRecurringTransactions] at h
  rw [mem_sortGroupsByAmountDesc] at h
  rcases List.mem_filterMap.mp h with ⟨txs, _, hA⟩
  exact ⟨txs, hA⟩

theorem analyzeGroup_shape {txs : List Transaction} {g : RecurringTransactionGroup}
    (h : analyzeGroup txs = some g) :
    ∃ sorted lastT merchant freq,
      sorted ≠ [] ∧
      (EXCLUDED_CATEGORIES.contains lastT.category &&
        !(lastT.category == "Transport" &&
          TRANSPORT_SUBSCRIPTIONS.any fun sub => containsStr merchant sub)) = false ∧
      g = mkGroup sorted lastT merchant freq := by
  simp only [analyzeGroup] at h
  split at h
  · exact absurd h (by simp)
  · split at h
    · exact absurd h (by simp)
    · next lastT hlast =>
      split at h
      · exact absurd h (by simp)
      · next hguard =>
        split at h
        · exact absurd h (by simp)
        · next freq hfreq =>
          have hne : sortByDate txs ≠ [] := by
            intro hnil
            rw [hnil] at hlast
            exact absurd hlast (by simp)
          exact ⟨sortByDate txs, lastT, _, freq, hne,
            Bool.not_eq_true _ ▸ Bool.eq_false_iff.mpr hguard, (Option.some.inj h).symm⟩

theorem mkGroup_merchantName (s : List Transaction) (l : Transaction) (m : String)
    (f : Frequency) : (mkGroup s l m f).merchantName = m := rfl

theorem mkGroup_frequency (s : List Transaction) (l : Transaction) (m : String)
    (f : Frequency) : (mkGroup s l m f).frequency = f := rfl

theorem mkGroup_category (s : List Transaction) (l : Transaction) (m : String)
    (f : Frequency) : (mkGroup s l m f).category = l.category := rfl

theorem mkGroup_id_eq (s : List Transaction) (l : Transaction) (m : String) (f : Frequency) :
    (mkGroup s l m f).id = groupIdOf m f (mkGroup s l m f).averageAmount := rfl

theorem mkGroup_next (s : List Transaction) (l : Transaction) (m : String) (f : Frequency) :
    (mkGroup s l m f).nextExpectedDate =
      some (calculateNextExpectedDate (mkGroup s l m f).lastTransactionDate
        (mkGroup s l m f).frequency) := rfl

theorem mkGroup_averageAmount (s : List Transaction) (l : Transaction) (m : String)
    (f : Frequency) :
    (mkGroup s l m f).averageAmount =
      ((s.map fun t => |t.amount|).sum) / (((s.map fun t => |t.amount|).length : ℕ) : ℚ) := rfl

theorem mkGroup_variance (s : List Transaction) (l : Transaction) (m : String)
    (f : Frequency) :
    (mkGroup s l m f).variance =
      ((listMax (s.map fun t => |t.amount|) - listMin (s.map fun t => |t.amount|)) /
        (mkGroup s l m f).averageAmount) * 100 := rfl

theorem listMin_le_listMax {l : List ℚ} (h : l ≠ []) : listMin l ≤ listMax l := by
  cases l with
  | nil => exact absurd rfl h
  | cons x xs =>
    cases xs with
    | nil => simp [listMin, listMax]
    | cons y ys =>
      simp only [listMin, listMax]
      exact le_trans (min_le_left _ _) (le_max_left _ _)

theorem mkGroup_avg_nonneg (s : List Transaction) (l : Transaction) (m : String)
    (f : Frequency) : 0 ≤ (mkGroup s l m f).averageAmount := by
  rw [mkGroup_averageAmount]
  apply div_nonneg
  · apply List.sum_nonneg
    intro x hx
    rcases List.mem_map.mp hx with ⟨t, _, rfl⟩
    exact abs_nonneg _
  · exact_mod_cast Nat.zero_le _

theorem mkGroup_variance_nonneg (s : List Transaction) (l : Transaction) (m : String)
    (f : Frequency) (hs : s ≠ []) : 0 ≤ (mkGroup s l m f).variance := by
  rw [mkGroup_variance]
  apply mul_nonneg
  · apply div_nonneg
    · have hmap : s.map (fun t => |t.amount|) ≠ [] := by simpa using hs
      have := listMin_le_listMax hmap
      linarith
    · exact mkGroup_avg_nonneg s l m f
  · norm_num

theorem mkGroup_isSubscription_eq (s : List Transaction) (l : Transaction) (m : String)
    (f : Frequency) :
    (mkGroup s l m f).isSubscription =
      (isLikelySubscription m l.category || (s.any fun t => isLastschrift t.description) ||
        (decide ((mkGroup s l m f).variance < 10) &&
          (f == .monthly || f == .yearly))) := rfl

theorem mkGroup_any_lastschrift (s : List Transaction) (l : Transaction) (m : String)
    (f : Frequency) :
    ((mkGroup s l m f).transactions.any fun t => isLastschrift t.description) =
      (s.any fun t => isLastschrift t.description) := by
  show ((s.map _).any _) = _
  rw [List.any_map]
  rfl

theorem category_not_excluded_of_guard {lastT : Transaction} {merchant : String}
    (hguard : (EXCLUDED_CATEGORIES.contains lastT.category &&
      !(lastT.category == "Transport" &&
        TRANSPORT_SUBSCRIPTIONS.any fun sub => containsStr merchant sub)) = false) :
    EXCLUDED_CATEGORIES.contains lastT.category = false := by
  by_cases hc : EXCLUDED_CATEGORIES.contains lastT.category = true
  · rw [hc, Bool.true_and, Bool.not_eq_false', Bool.and_eq_true] at hguard
    have htr : lastT.category = "Transport" := beq_iff_eq.mp hguard.1
    rw [htr] at hc
    exact absurd hc (by decide)
  · simpa using hc

theorem detect_id_eq {ts : List Transaction} {g : RecurringTransactionGroup}
    (h : g ∈ detectRecurringTransactions ts) :
    g.id = groupIdOf g.merchantName g.frequency g.averageAmount := by
  rcases detect_mem_analyze h with ⟨txs, hA⟩
  rcases analyzeGroup_shape hA with ⟨s, l, m, f, -, -, rfl⟩
  rw [mkGroup_merchantName, mkGroup_frequency]
  exact mkGroup_id_eq s l m f

/-! ### Claim C1 -/

/-- C1: every emitted group's id is the merchant name with whitespace
runs replaced by `-`, then `_`, the frequency, `_`, and
`round(averageAmount*100)`; consequently the id is a pure function of
(merchantName, frequency, round(averageAmount*100)), so re-running
detection yields identical ids for corresponding groups. -/
theorem detect_groupId_deterministic (ts : List Transaction) (g : RecurringTransactionGroup)
    (h : g ∈ detectRecurringTransactions ts) :
    g.id = groupIdOf g.merchantName g.frequency g.averageAmount ∧
    ∀ ts2 g2, g2 ∈ detectRecurringTransactions ts2 →
      g.merchantName = g2.merchantName → g.frequency = g2.frequency →
      round (g.averageAmount * 100) = round (g2.averageAmount * 100) → g.id = g2.id := by
  refine ⟨detect_id_eq h, fun ts2 g2 h2 hm hf ha => ?_⟩
  rw [detect_id_eq h, detect_id_eq h2, hm, hf]
  unfold groupIdOf
  rw [ha]

unseal Rat.add Rat.mul Rat.inv Rat.sub in
theorem detect_groupId_deterministic_witness :
    groupA.id = groupIdOf groupA.merchantName groupA.frequency groupA.averageAmount :=
  (detect_groupId_deterministic scenarioA groupA (by decide)).1

/-! ### Claim C6 -/

/-- C6: every emitted group has nonnegative variance, and no emitted
group carries a category from the excluded set (the transit allow-list
exception can only fire for category `Transport`, which is not in the
excluded set, so excluded-category clusters are never emitted at all —
hence `isSubscription` is vacuously false for them, by non-emission). -/
theorem variance_nonneg_and_category_not_excluded (ts : List Transaction)
    (g : RecurringTransactionGroup) (h : g ∈ detectRecurringTransactions ts) :
    0 ≤ g.variance ∧ EXCLUDED_CATEGORIES.contains g.category = false := by
  rcases detect_mem_analyze h with ⟨txs, hA⟩
  rcases analyzeGroup_shape hA with ⟨s, l, m, f, hne, hguard, rfl⟩
  refine ⟨mkGroup_variance_nonneg s l m f hne, ?_⟩
  rw [mkGroup_category]
  exact category_not_excluded_of_guard hguard

unseal Rat.add Rat.mul Rat.inv Rat.sub in
theorem variance_nonneg_and_category_not_excluded_witness :
    0 ≤ groupA.variance ∧ EXCLUDED_CATEGORIES.contains groupA.category = false :=
  variance_nonneg_and_category_not_excluded scenarioA groupA (by decide)

/-! ### Claim C7 -/

/-- C7: every emitted group's `nextExpectedDate` is exactly
`calculateNextExpectedDate` of its `lastTransactionDate` and frequency;
that advance adds exactly 7 days for weekly, and is calendar-aware (not
a fixed day count) for monthly and yearly, as the concrete calendar
facts in the remaining conjuncts show (Jan→Feb 2024 is 31 days but
Feb→Mar 2024 is 29; a yearly step is 365 days from 2023-02-15 but 366
from 2024-02-15, landing on the same calendar day each time). -/
theorem nextExpectedDate_one_period_ahead (ts : List Transaction)
    (g : RecurringTransactionGroup) (h : g ∈ detectRecurringTransactions ts) :
    g.nextExpectedDate = some (calculateNextExpectedDate g.lastTransactionDate g.frequency) ∧
    (∀ d : ℤ, calculateNextExpectedDate d .weekly = d + 7) ∧
    calculateNextExpectedDate (daysFromCivil 2024 0 15) .monthly = daysFromCivil 2024 1 15 ∧
    calculateNextExpectedDate (daysFromCivil 2024 0 15) .monthly - daysFromCivil 2024 0 15 = 31 ∧
    calculateNextExpectedDate (daysFromCivil 2024 1 15) .monthly - daysFromCivil 2024 1 15 = 29 ∧
    calculateNextExpectedDate (daysFromCivil 2023 1 15) .yearly = daysFromCivil 2024 1 15 ∧
    calculateNextExpectedDate (daysFromCivil 2023 1 15) .yearly - daysFromCivil 2023 1 15 = 365 ∧
    calculateNextExpectedDate (daysFromCivil 2024 1 15) .yearly - daysFromCivil 2024 1 15 = 366 := by
  refine ⟨?_, fun d => rfl, by decide, by decide, by decide, by decide, by decide, by decide⟩
  rcases detect_mem_analyze h with ⟨txs, hA⟩
  rcases analyzeGroup_shape hA with ⟨s, l, m, f, -, -, rfl⟩
  exact mkGroup_next s l m f

unseal Rat.add Rat.mul Rat.inv Rat.sub in
theorem nextExpectedDate_one_period_ahead_witness :
    groupA.nextExpectedDate =
      some (calculateNextExpectedDate groupA.lastTransactionDate groupA.frequency) :=
  (nextExpectedDate_one_period_ahead scenarioA groupA (by decide)).1

/-! ### Claim C5 -/

/-- C5: for every emitted group, `isSubscription` holds exactly when one
of the three triggers fires — the known-subscription keyword policy on
the merchant key and category, a member description containing the
direct-debit marker, or variance below 10 with monthly or yearly
frequency — and in particular a weekly group that is a subscription must
owe it to the first two triggers, never to low variance alone. -/
theorem isSubscription_triple_trigger (ts : List Transaction)
    (g : RecurringTransactionGroup) (h : g ∈ detectRecurringTransactions ts) :
    (g.isSubscription = true ↔
      (isLikelySubscription g.merchantName g.category = true ∨
       (∃ t ∈ g.transactions, isLastschrift t.description = true) ∨
       (g.variance < 10 ∧ (g.frequency = .monthly ∨ g.frequency = .yearly)))) ∧
    (g.frequency = .weekly → g.isSubscription = true →
      (isLikelySubscription g.merchantName g.category = true ∨
       ∃ t ∈ g.transactions, isLastschrift t.description = true)) := by
  rcases detect_mem_analyze h with ⟨txs, hA⟩
  rcases analyzeGroup_shape hA with ⟨s, l, m, f, -, -, rfl⟩
  have hAny := mkGroup_any_lastschrift s l m f
  have hiff : (mkGroup s l m f).isSubscription = true ↔
      (isLikelySubscription (mkGroup s l m f).merchantName (mkGroup s l m f).category = true ∨
       (∃ t ∈ (mkGroup s l m f).transactions, isLastschrift t.description = true) ∨
       ((mkGroup s l m f).variance < 10 ∧
        ((mkGroup s l m f).frequency = .monthly ∨ (mkGroup s l m f).frequency = .yearly))) := by
    rw [mkGroup_isSubscription_eq, ← hAny]
    simp only [mkGroup_merchantName, mkGroup_category, mkGroup_frequency, Bool.or_eq_true,
      Bool.and_eq_true, decide_eq_true_eq, beq_iff_eq, List.any_eq_true]
    exact or_assoc
  refine ⟨hiff, fun hw hsub => ?_⟩
  rcases hiff.mp hsub with h1 | h2 | h3
  · exact Or.inl h1
  · exact Or.inr h2
  · exfalso
    rw [mkGroup_frequency] at hw h3
    rcases h3.2 with hm | hy
    · rw [hw] at hm
      exact absurd hm (by decide)
    · rw [hw] at hy
      exact absurd hy (by decide)

unseal Rat.add Rat.mul Rat.inv Rat.sub in
theorem isSubscription_triple_trigger_witness :
    groupA.isSubscription = true ↔
      (isLikelySubscription groupA.merchantName groupA.category = true ∨
       (∃ t ∈ groupA.transactions, isLastschrift t.description = true) ∨
       (groupA.variance < 10 ∧ (groupA.frequency = .monthly ∨ groupA.frequency = .yearly))) :=
  (isSubscription_triple_trigger scenarioA groupA (by decide)).1

/-! ### Claim C8 (corrected) -/

/-- C8, counterexample to the claim as stated: the single-transaction
creation path stores the transaction's raw signed amount, so adding a
subscription from an expense transaction of `-15.99` stores a negative
amount (the repository's own test `subscription-manager` asserts exactly
this: `expect(result.amount).toBe(-15.99)`). -/
theorem stored_amount_negative_counterexample :
    ∃ store2 sub,
      addSubscriptionFromTransaction "uuid-1" txA1 .monthly 0 [] = Except.ok (store2, sub) ∧
      sub.amount < 0 :=
  ⟨[c8sub], c8sub, rfl, by norm_num [c8sub]⟩

/-- C8, amended: the vendor-add path and the confirm path store the
unsigned average absolute amount (nonnegative); the single-transaction
path stores the transaction's raw amount unchanged, which is negative
for expense rows. -/
theorem stored_amount_by_creation_path :
    (∀ uuid t freq now store result,
        addSubscriptionFromTransaction uuid t freq now store = Except.ok result →
        result.2.amount = t.amount) ∧
    (∀ vendorName txs now store result,
        addSubscriptionFromVendor vendorName txs now store = Except.ok result →
        0 ≤ result.2.amount) ∧
    (∀ ts g now store, g ∈ detectRecurringTransactions ts →
        0 ≤ (confirmSubscription g now store).2.amount) := by
  refine ⟨?_, ?_, ?_⟩
  · intro uuid t freq now store result h
    simp only [addSubscriptionFromTransaction] at h
    split at h
    · exact absurd h (by simp)
    · rw [← Except.ok.inj h]
  · intro vendorName txs now store result h
    simp only [addSubscriptionFromVendor] at h
    split at h
    · exact absurd h (by simp)
    · rw [← Except.ok.inj h]
      show (0 : ℚ) ≤ ((txs.map fun t => |t.amount|).sum) / ((txs.length : ℕ) : ℚ)
      apply div_nonneg
      · apply List.sum_nonneg
        intro x hx
        rcases List.mem_map.mp hx with ⟨t, -, rfl⟩
        exact abs_nonneg _
      · exact_mod_cast Nat.zero_le _
  · intro ts g now store h
    show 0 ≤ g.averageAmount
    rcases detect_mem_analyze h with ⟨txs, hA⟩
    rcases analyzeGroup_shape hA with ⟨s, l, m, f, -, -, rfl⟩
    exact mkGroup_avg_nonneg s l m f

unseal Rat.add Rat.mul Rat.inv Rat.sub in
theorem stored_amount_by_creation_path_witness :
    c8sub.amount = txA1.amount ∧ 0 ≤ (confirmSubscription groupA 0 []).2.amount :=
  ⟨stored_amount_by_creation_path.1 "uuid-1" txA1 .monthly 0 [] ([c8sub], c8sub) rfl,
   stored_amount_by_creation_path.2.2 scenarioA groupA 0 [] (by decide)⟩

/-! ### Claim C3 -/

/-- C3: the builder's frequency decision (strict bands on the mean gap
and maximum deviation, checked weekly, monthly, yearly in that order,
then the relaxed single-gap fallback for two-transaction groups in the
order monthly, yearly, weekly) agrees with the classifier exactly as
worded in the spec on every non-empty gap list. -/
theorem frequency_classifier_matches_spec (gaps : List ℤ) (h : gaps ≠ []) :
    detectFrequencyWithFallback gaps (gaps.length + 1) =
      frequencyClassifierSpec gaps (gaps.length + 1) := by
  cases gaps with
  | nil => exact absurd rfl h
  | cons a rest =>
    cases rest with
    | nil =>
      have hL : detectFrequencyWithFallback [a] ([a].length + 1) =
          (if 20 ≤ a ∧ a ≤ 40 then some .monthly
           else if 340 ≤ a ∧ a ≤ 400 then some .yearly
           else if 3 ≤ a ∧ a ≤ 15 then some .weekly
           else none) := by
        simp [detectFrequencyWithFallback, detectFrequency]
      have hR : frequencyClassifierSpec [a] ([a].length + 1) =
          (if 3 ≤ a ∧ a ≤ 14 then some .weekly
           else if 23 ≤ a ∧ a ≤ 38 then some .monthly
           else if 340 ≤ a ∧ a ≤ 390 then some .yearly
           else if 20 ≤ a ∧ a ≤ 40 then some .monthly
           else if 340 ≤ a ∧ a ≤ 400 then some .yearly
           else if 3 ≤ a ∧ a ≤ 15 then some .weekly
           else none) := by
        simp only [frequencyClassifierSpec, List.map_cons, List.map_nil, List.sum_cons,
          List.sum_nil, List.length_cons, List.length_nil, listMax]
        norm_num
        norm_cast
      rw [hL, hR]
      split_ifs <;> first | rfl | omega
    | cons b rest2 =>
      simp only [detectFrequencyWithFallback, detectFrequency, frequencyClassifierSpec]
      have hlen : ¬((a :: b :: rest2).length < 2) := by simp
      rw [if_neg hlen]
      split_ifs <;> simp_all

theorem frequency_classifier_matches_spec_witness :
    ([(30 : ℤ)] ≠ []) ∧
    detectFrequencyWithFallback [(30 : ℤ)] ([(30 : ℤ)].length + 1) =
      frequencyClassifierSpec [(30 : ℤ)] ([(30 : ℤ)].length + 1) :=
  ⟨by decide, frequency_classifier_matches_spec [30] (by decide)⟩

/-! ### Lemmas for claim C4: characters and split/join -/

theorem lowerChar_fixed {c : Char} (h : isLowerAlpha c = true ∨ c = ' ') :
    lowerChar c = c := by
  rcases h with h | rfl
  · unfold lowerChar
    rw [if_neg]
    intro hcontra
    rw [Bool.and_eq_true, decide_eq_true_eq, decide_eq_true_eq] at hcontra
    rw [isLowerAlpha, Bool.and_eq_true, decide_eq_true_eq, decide_eq_true_eq] at h
    have a1 : (97 : ℕ) ≤ c.toNat := h.1
    have a2 : c.toNat ≤ (90 : ℕ) := hcontra.2
    omega
  · decide

theorem space_cases {c : Char} (h : isSpaceChar c = true) :
    c = ' ' ∨ c = '\t' ∨ c = '\n' ∨ c = '\r' ∨ c = '\x0b' ∨ c = '\x0c' := by
  simp only [isSpaceChar, Bool.or_eq_true, beq_iff_eq] at h
  tauto

theorem lowerAlpha_not_space {c : Char} (h : isLowerAlpha c = true) :
    isSpaceChar c = false := by
  cases hsp : isSpaceChar c with
  | false => rfl
  | true =>
    rcases space_cases hsp with rfl | rfl | rfl | rfl | rfl | rfl <;>
      exact absurd h (by decide)

theorem good_not_space_beq {c : Char} (h : isLowerAlpha c = true) : (c == ' ') = false := by
  cases hb : c == ' ' with
  | false => rfl
  | true =>
    have : c = ' ' := beq_iff_eq.mp hb
    subst this
    exact absurd h (by decide)

theorem good_not_digit {c : Char} (h : isLowerAlpha c = true ∨ c = ' ') :
    isDigitChar c = false := by
  rcases h with h | rfl
  · cases hd : isDigitChar c with
    | false => rfl
    | true =>
      rw [isDigitChar, Bool.and_eq_true, decide_eq_true_eq, decide_eq_true_eq] at hd
      rw [isLowerAlpha, Bool.and_eq_true, decide_eq_true_eq, decide_eq_true_eq] at h
      have a1 : (97 : ℕ) ≤ c.toNat := h.1
      have a2 : c.toNat ≤ (57 : ℕ) := hd.2
      omega
  · decide

theorem splitOnSpace_ne_nil (s : List Char) : splitOnSpace s ≠ [] := by
  cases s with
  | nil => simp [splitOnSpace]
  | cons c rest =>
    unfold splitOnSpace
    split
    · split <;> simp
    · simp

theorem joinSpace_cons_cons (c : Char) (w : List Char) (ws : List (List Char)) :
    joinSpace ((c :: w) :: ws) = c :: joinSpace (w :: ws) := by
  cases ws <;> rfl

theorem joinSpace_splitOnSpace (s : List Char) : joinSpace (splitOnSpace s) = s := by
  induction s with
  | nil => rfl
  | cons c rest ih =>
    unfold splitOnSpace
    cases hs : splitOnSpace rest with
    | nil => exact absurd hs (splitOnSpace_ne_nil rest)
    | cons w ws =>
      rw [hs] at ih
      by_cases hc : c = ' '
      · subst hc
        simp only [beq_self_eq_true, if_true]
        show ' ' :: joinSpace (w :: ws) = ' ' :: rest
        rw [ih]
      · have hcb : (c == ' ') = false := by simpa using hc
        rw [hcb]
        show joinSpace ((c :: w) :: ws) = c :: rest
        rw [joinSpace_cons_cons, ih]

theorem splitOnSpace_all_nonspace {s : List Char} (h : ∀ c ∈ s, (c == ' ') = false) :
    splitOnSpace s = [s] := by
  induction s with
  | nil => rfl
  | cons c rest ih =>
    unfold splitOnSpace
    rw [ih fun d hd => h d (List.mem_cons_of_mem c hd)]
    rw [h c (List.mem_cons_self c rest)]
    simp

theorem splitOnSpace_append {w t : List Char} {u : List Char} {us : List (List Char)}
    (hw : ∀ c ∈ w, (c == ' ') = false) (h : splitOnSpace t = u :: us) :
    splitOnSpace (w ++ t) = (w ++ u) :: us := by
  induction w with
  | nil => simpa using h
  | cons c w2 ih =>
    have hc := hw c (List.mem_cons_self c w2)
    have ih2 := ih fun d hd => hw d (List.mem_cons_of_mem c hd)
    show splitOnSpace (c :: (w2 ++ t)) = ((c :: w2) ++ u) :: us
    unfold splitOnSpace
    rw [ih2, hc]
    simp

theorem splitOnSpace_joinSpace {ws : List (List Char)}
    (h : ∀ w ∈ ws, ∀ c ∈ w, (c == ' ') = false) (hne : ws ≠ []) :
    splitOnSpace (joinSpace ws) = ws := by
  induction ws with
  | nil => exact absurd rfl hne
  | cons w rest ih =>
    cases rest with
    | nil =>
      show splitOnSpace (joinSpace [w]) = [w]
      exact splitOnSpace_all_nonspace (h w (List.mem_cons_self w []))
    | cons w2 rest2 =>
      have hrest : splitOnSpace (joinSpace (w2 :: rest2)) = w2 :: rest2 :=
        ih (fun v hv c hc => h v (List.mem_cons_of_mem w hv) c hc) (by simp)
      show splitOnSpace (w ++ ' ' :: joinSpace (w2 :: rest2)) = w :: w2 :: rest2
      have hsp : splitOnSpace (' ' :: joinSpace (w2 :: rest2)) = [] :: w2 :: rest2 := by
        unfold splitOnSpace
        rw [hrest]
        rfl
      have := splitOnSpace_append (h w (List.mem_cons_self w _)) hsp
      simpa using this

theorem mem_joinSpace {c : Char} {ws : List (List Char)} (h : c ∈ joinSpace ws) :
    c = ' ' ∨ ∃ w ∈ ws, c ∈ w := by
  induction ws with
  | nil => exact absurd h (by simp [joinSpace])
  | cons w rest ih =>
    cases rest with
    | nil =>
      right
      exact ⟨w, List.mem_cons_self w [], h⟩
    | cons w2 rest2 =>
      rw [show joinSpace (w :: w2 :: rest2) = w ++ ' ' :: joinSpace (w2 :: rest2) from rfl] at h
      rcases List.mem_append.mp h with hw | hsp
      · exact Or.inr ⟨w, List.mem_cons_self w _, hw⟩
      · rcases List.mem_cons.mp hsp with rfl | hj
        · exact Or.inl rfl
        · rcases ih hj with hc | ⟨v, hv, hcv⟩
          · exact Or.inl hc
          · exact Or.inr ⟨v, List.mem_cons_of_mem w hv, hcv⟩

theorem joinSpace_take3 {ws : List (List Char)} (h3 : 3 < ws.length) :
    joinSpace ws = joinSpace (ws.take 3) ++ ' ' :: joinSpace (ws.drop 3) := by
  match ws, h3 with
  | w1 :: w2 :: w3 :: w4 :: rest, _ =>
    show joinSpace (w1 :: w2 :: w3 :: w4 :: rest) =
      joinSpace [w1, w2, w3] ++ ' ' :: joinSpace (w4 :: rest)
    show w1 ++ ' ' :: (w2 ++ ' ' :: (w3 ++ ' ' :: joinSpace (w4 :: rest))) =
      (w1 ++ ' ' :: (w2 ++ ' ' :: w3)) ++ ' ' :: joinSpace (w4 :: rest)
    simp [List.append_assoc]

theorem stringMk_data (s : String) : String.mk s.data = s := rfl

theorem map_fixed {f : Char → Char} {l : List Char} (h : ∀ c ∈ l, f c = c) :
    l.map f = l := by
  induction l with
  | nil => rfl
  | cons c rest ih =>
    rw [List.map_cons, h c (List.mem_cons_self c rest),
      ih fun d hd => h d (List.mem_cons_of_mem c hd)]

theorem isEmpty_false_of_ne_nil {α : Type} {l : List α} (h : l ≠ []) :
    l.isEmpty = false := by
  cases l with
  | nil => exact absurd rfl h
  | cons a t => rfl

theorem ne_nil_of_isEmpty_false {α : Type} {l : List α} (h : l.isEmpty = false) :
    l ≠ [] := by
  cases l with
  | nil => exact absurd h (by simp)
  | cons a t => simp

theorem plainWord_parts {w : List Char} (h : plainWord w = true) :
    w ≠ [] ∧ ∀ c ∈ w, isLowerAlpha c = true := by
  rw [plainWord, Bool.and_eq_true, Bool.not_eq_true', List.all_eq_true] at h
  exact ⟨ne_nil_of_isEmpty_false h.1, h.2⟩

theorem dropWhile_join_plain {ws : List (List Char)} (h : ∀ w ∈ ws, plainWord w = true) :
    (joinSpace ws).dropWhile isSpaceChar = joinSpace ws := by
  cases ws with
  | nil => rfl
  | cons w rest =>
    obtain ⟨hne, halpha⟩ := plainWord_parts (h w (List.mem_cons_self w rest))
    cases w with
    | nil => exact absurd rfl hne
    | cons c w2 =>
      have hcs : isSpaceChar c = false :=
        lowerAlpha_not_space (halpha c (List.mem_cons_self c w2))
      rw [joinSpace_cons_cons, List.dropWhile_cons, hcs]
      simp

theorem joinSpace_append_single (A : List (List Char)) (v : List Char) (hA : A ≠ []) :
    joinSpace (A ++ [v]) = joinSpace A ++ ' ' :: v := by
  induction A with
  | nil => exact absurd rfl hA
  | cons w rest ih =>
    cases rest with
    | nil => rfl
    | cons w2 rest2 =>
      show joinSpace (w :: (w2 :: rest2 ++ [v])) = (w ++ ' ' :: joinSpace (w2 :: rest2)) ++ ' ' :: v
      have hstep : joinSpace (w :: (w2 :: rest2 ++ [v])) =
          w ++ ' ' :: joinSpace (w2 :: rest2 ++ [v]) := rfl
      rw [hstep, ih (by simp)]
      simp [List.append_assoc]

theorem joinSpace_reverse (ws : List (List Char)) :
    (joinSpace ws).reverse = joinSpace ((ws.map List.reverse).reverse) := by
  induction ws with
  | nil => rfl
  | cons w rest ih =>
    cases rest with
    | nil => rfl
    | cons w2 rest2 =>
      show (w ++ ' ' :: joinSpace (w2 :: rest2)).reverse = _
      rw [List.reverse_append, List.reverse_cons, ih]
      have hA : (List.map List.reverse (w :: w2 :: rest2)).reverse =
          (List.map List.reverse (w2 :: rest2)).reverse ++ [w.reverse] := by
        rw [List.map_cons, List.reverse_cons]
      rw [hA, joinSpace_append_single _ _ (by simp)]
      simp [List.append_assoc]

theorem plainWord_reverse {w : List Char} (h : plainWord w = true) :
    plainWord w.reverse = true := by
  obtain ⟨hne, halpha⟩ := plainWord_parts h
  rw [plainWord, Bool.and_eq_true, Bool.not_eq_true', List.all_eq_true]
  refine ⟨isEmpty_false_of_ne_nil (by simpa using hne), ?_⟩
  intro c hc
  exact halpha c (List.mem_reverse.mp hc)

theorem trim_join {ws : List (List Char)} (h : ∀ w ∈ ws, plainWord w = true) :
    trimChars (joinSpace ws) = joinSpace ws := by
  unfold trimChars
  rw [dropWhile_join_plain h, joinSpace_reverse, dropWhile_join_plain, ← joinSpace_reverse,
    List.reverse_reverse]
  intro w hw
  rw [List.mem_reverse, List.mem_map] at hw
  rcases hw with ⟨v, hv, rfl⟩
  exact plainWord_reverse (h v hv)

theorem runCollapse_nonspace (b : Bool) (w t : List Char)
    (hw : ∀ c ∈ w, isSpaceChar c = false) :
    runCollapse ' ' b (w ++ t) =
      w ++ runCollapse ' ' (if w.isEmpty then b else false) t := by
  induction w generalizing b with
  | nil => simp [List.isEmpty]
  | cons c w2 ih =>
    have hc := hw c (List.mem_cons_self c w2)
    show runCollapse ' ' b (c :: (w2 ++ t)) = _
    rw [runCollapse, hc]
    simp only [Bool.false_eq_true, if_false]
    rw [ih false fun d hd => hw d (List.mem_cons_of_mem c hd)]
    simp [ite_self]

theorem collapse_join {ws : List (List Char)} (h : ∀ w ∈ ws, plainWord w = true) :
    ∀ b, runCollapse ' ' b (joinSpace ws) = joinSpace ws := by
  induction ws with
  | nil => intro b; rfl
  | cons w rest ih =>
    intro b
    obtain ⟨hne, halpha⟩ := plainWord_parts (h w (List.mem_cons_self w rest))
    have hnospace : ∀ c ∈ w, isSpaceChar c = false :=
      fun c hc => lowerAlpha_not_space (halpha c hc)
    have hempty : w.isEmpty = false := isEmpty_false_of_ne_nil hne
    cases rest with
    | nil =>
      show runCollapse ' ' b w = w
      have h2 := runCollapse_nonspace b w [] hnospace
      rw [List.append_nil] at h2
      rw [h2, hempty]
      simp only [Bool.false_eq_true, if_false]
      show w ++ runCollapse ' ' false [] = w
      simp [runCollapse]
    | cons w2 rest2 =>
      show runCollapse ' ' b (w ++ ' ' :: joinSpace (w2 :: rest2)) =
        w ++ ' ' :: joinSpace (w2 :: rest2)
      rw [runCollapse_nonspace b w _ hnospace, hempty]
      simp only [Bool.false_eq_true, if_false]
      have hstep : runCollapse ' ' false (' ' :: joinSpace (w2 :: rest2)) =
          ' ' :: runCollapse ' ' true (joinSpace (w2 :: rest2)) := by
        have hs1 : isSpaceChar ' ' = true := rfl
        rw [runCollapse, hs1]
        simp
      rw [hstep, ih (fun v hv => h v (List.mem_cons_of_mem w hv)) true]

theorem takeWhile_nil_of_false {p : Char → Bool} {s : List Char}
    (h : ∀ c ∈ s, p c = false) : s.takeWhile p = [] := by
  cases s with
  | nil => rfl
  | cons c rest =>
    rw [List.takeWhile_cons, h c (List.mem_cons_self c rest)]
    simp

theorem leadsWith_contains {kw s : List Char} (h : leadsWith kw s = true) :
    containsSub kw s = true := by
  cases s with
  | nil => exact h
  | cons c cs =>
    rw [containsSub, Bool.or_eq_true]
    exact Or.inl h

theorem leadsWith_of_append {p q s : List Char} (h : leadsWith (p ++ q) s = true) :
    leadsWith p s = true := by
  induction p generalizing s with
  | nil => rfl
  | cons a p2 ih =>
    cases s with
    | nil => exact absurd h (by simp [leadsWith])
    | cons c cs =>
      simp only [List.cons_append, leadsWith, Bool.and_eq_true] at h ⊢
      exact ⟨h.1, ih h.2⟩

theorem leadsWith_extend {kw s b : List Char} (h : leadsWith kw s = true) :
    leadsWith kw (s ++ b) = true := by
  induction kw generalizing s with
  | nil => rfl
  | cons a kw2 ih =>
    cases s with
    | nil => exact absurd h (by simp [leadsWith])
    | cons c cs =>
      simp only [List.cons_append, leadsWith, Bool.and_eq_true] at h ⊢
      exact ⟨h.1, ih h.2⟩

theorem containsSub_false_suffix {kw s t : List Char} (hs : containsSub kw s = false)
    (ht : t <:+ s) : containsSub kw t = false := by
  induction s with
  | nil =>
    have : t = [] := List.suffix_nil.mp ht
    subst this
    exact hs
  | cons c cs ih =>
    rw [containsSub, Bool.or_eq_false_iff] at hs
    rcases List.suffix_cons_iff.mp ht with rfl | ht2
    · rw [containsSub, Bool.or_eq_false_iff]
      exact hs
    · exact ih hs.2 ht2

theorem containsSub_append_left {kw a b : List Char} (h : containsSub kw a = true) :
    containsSub kw (a ++ b) = true := by
  induction a with
  | nil =>
    cases kw with
    | nil =>
      cases b with
      | nil => rfl
      | cons x xs =>
        show containsSub [] (x :: xs) = true
        rw [containsSub, Bool.or_eq_true]
        exact Or.inl rfl
    | cons k ks => exact absurd h (by simp [containsSub, leadsWith])
  | cons c cs ih =>
    rw [containsSub, Bool.or_eq_true] at h
    show containsSub kw (c :: (cs ++ b)) = true
    rw [containsSub, Bool.or_eq_true]
    rcases h with hl | hc
    · exact Or.inl (leadsWith_extend hl)
    · exact Or.inr (ih hc)

theorem firstAlt_none {cont : List Char → Option ℕ} {s : List Char}
    {alts : List (List Char)} (h : ∀ kw ∈ alts, leadsWith kw s = false) :
    firstAlt cont s alts = none := by
  induction alts with
  | nil => rfl
  | cons kw rest ih =>
    simp only [firstAlt, h kw (List.mem_cons_self kw rest), Bool.false_eq_true, if_false]
    exact ih fun k hk => h k (List.mem_cons_of_mem kw hk)

theorem scanGo_id {m : List Char → Option ℕ} {nb : Bool} :
    ∀ (s : List Char), (∀ t, t <:+ s → m t = none) →
      ∀ fuel prev, scanGo m nb fuel prev s = s := by
  intro s
  induction s with
  | nil =>
    intro _ fuel prev
    cases fuel <;> rfl
  | cons c rest ih =>
    intro hm fuel prev
    cases fuel with
    | zero => rfl
    | succ f =>
      have hmc : m (c :: rest) = none := hm _ (List.suffix_refl _)
      rw [scanGo, hmc]
      simp only [ite_self]
      rw [ih (fun t ht => hm t (ht.trans (List.suffix_cons c rest))) f (some c)]

theorem scanReplace_id {m : List Char → Option ℕ} {nb : Bool} {s : List Char}
    (hm : ∀ t, t <:+ s → m t = none) : scanReplace m nb s = s :=
  scanGo_id s hm s.length none

theorem matchIban_none {t : List Char} (h1 : leadsWith "iban".data t = false)
    (h2 : leadsWith "bic".data t = false) : matchIban t = none := by
  unfold matchIban
  apply firstAlt_none
  intro kw hkw
  rcases List.mem_cons.mp hkw with rfl | hkw2
  · exact h1
  · rcases List.mem_cons.mp hkw2 with rfl | h3
    · exact h2
    · simp at h3

theorem matchRef_none {t : List Char} (h1 : leadsWith "ref".data t = false)
    (h2 : leadsWith "order".data t = false)
    (h3 : leadsWith "transaction".data t = false) : matchRef t = none := by
  unfold matchRef
  apply firstAlt_none
  intro kw hkw
  rcases List.mem_cons.mp hkw with rfl | hkw2
  · exact h1
  · rcases List.mem_cons.mp hkw2 with rfl | hkw3
    · cases hl : leadsWith "reference".data t with
      | false => rfl
      | true =>
        have : leadsWith "ref".data t = true :=
          leadsWith_of_append (p := "ref".data) (q := "erence".data) hl
        rw [this] at h1
        exact absurd h1 (by simp)
    · rcases List.mem_cons.mp hkw3 with rfl | hkw4
      · exact h2
      · rcases List.mem_cons.mp hkw4 with rfl | h5
        · exact h3
        · simp at h5

theorem matchDate_none {t : List Char} (h : ∀ c ∈ t, isDigitChar c = false) :
    matchDate t = none := by
  unfold matchDate
  split
  · next d1 d2 s1 d3 d4 s2 y1 y2 y3 y4 rest =>
    have hd1 : isDigitChar d1 = false := h d1 (by simp)
    simp [hd1]
  · rfl

theorem matchAmount_none {t : List Char} (h : ∀ c ∈ t, isDigitChar c = false) :
    matchAmount t = none := by
  cases t with
  | nil => rfl
  | cons c r =>
    have hr : r.takeWhile isDigitChar = [] :=
      takeWhile_nil_of_false fun d hd => h d (List.mem_cons_of_mem c hd)
    have ht : (c :: r).takeWhile isDigitChar = [] := takeWhile_nil_of_false h
    by_cases hsgn : (c == '+' || c == '-') = true
    · simp [matchAmount, spanCount, hsgn, hr]
    · have hsgn2 : (c == '+' || c == '-') = false := by
        simpa using hsgn
      simp [matchAmount, spanCount, hsgn2, ht]

theorem stripPrefixKeyword_id {s : List Char}
    (h : ∀ kw ∈ ["mastercard".data, "lastschriften".data, "gutschriften".data,
      "belastungen".data], leadsWith kw s = false) :
    stripPrefixKeyword s = s := by
  unfold stripPrefixKeyword
  rw [firstAlt_none h]

theorem normalize_plain (x : String) (hx : plainDescription x = true) :
    normalizeMerchantName x =
      if 3 < (splitOnSpace x.data).length
      then String.mk (joinSpace ((splitOnSpace x.data).take 3))
      else x := by
  rw [plainDescription, Bool.and_eq_true, List.all_eq_true, List.all_eq_true] at hx
  obtain ⟨hw, hkw0⟩ := hx
  have hkwF : ∀ kw ∈ REMOVER_TOKENS, containsSub kw.data x.data = false := by
    intro kw hkwm
    have := hkw0 kw hkwm
    rwa [Bool.not_eq_true'] at this
  have hjoin : joinSpace (splitOnSpace x.data) = x.data := joinSpace_splitOnSpace x.data
  have hchars : ∀ c ∈ x.data, isLowerAlpha c = true ∨ c = ' ' := by
    intro c hc
    rw [← hjoin] at hc
    rcases mem_joinSpace hc with rfl | ⟨w, hwmem, hcw⟩
    · exact Or.inr rfl
    · exact Or.inl ((plainWord_parts (hw w hwmem)).2 c hcw)
  have hlower : x.data.map lowerChar = x.data :=
    map_fixed fun c hc => lowerChar_fixed (hchars c hc)
  have htrim : trimChars x.data = x.data := by
    rw [← hjoin]
    exact trim_join hw
  have hleads : ∀ kw ∈ REMOVER_TOKENS, ∀ t, t <:+ x.data → leadsWith kw.data t = false := by
    intro kw hkwm t ht
    cases hl : leadsWith kw.data t with
    | false => rfl
    | true =>
      have hct : containsSub kw.data t = true := leadsWith_contains hl
      have hcf := containsSub_false_suffix (hkwF kw hkwm) ht
      rw [hcf] at hct
      exact absurd hct (by simp)
  have hstrip : stripPrefixKeyword x.data = x.data := by
    apply stripPrefixKeyword_id
    intro kw hkwm
    rcases List.mem_cons.mp hkwm with rfl | h2
    · exact hleads "mastercard" (by simp [REMOVER_TOKENS]) x.data (List.suffix_refl _)
    · rcases List.mem_cons.mp h2 with rfl | h3
      · exact hleads "lastschriften" (by simp [REMOVER_TOKENS]) x.data (List.suffix_refl _)
      · rcases List.mem_cons.mp h3 with rfl | h4
        · exact hleads "gutschriften" (by simp [REMOVER_TOKENS]) x.data (List.suffix_refl _)
        · rcases List.mem_cons.mp h4 with rfl | h5
          · exact hleads "belastungen" (by simp [REMOVER_TOKENS]) x.data (List.suffix_refl _)
          · simp at h5
  have hscan1 : scanReplace matchIban true x.data = x.data := by
    apply scanReplace_id
    intro t ht
    exact matchIban_none (hleads "iban" (by simp [REMOVER_TOKENS]) t ht)
      (hleads "bic" (by simp [REMOVER_TOKENS]) t ht)
  have hscan2 : scanReplace matchDate true x.data = x.data := by
    apply scanReplace_id
    intro t ht
    apply matchDate_none
    intro c hc
    exact good_not_digit (hchars c (ht.subset hc))
  have hscan3 : scanReplace matchRef true x.data = x.data := by
    apply scanReplace_id
    intro t ht
    exact matchRef_none (hleads "ref" (by simp [REMOVER_TOKENS]) t ht)
      (hleads "order" (by simp [REMOVER_TOKENS]) t ht)
      (hleads "transaction" (by simp [REMOVER_TOKENS]) t ht)
  have hscan4 : scanReplace matchAmount false x.data = x.data := by
    apply scanReplace_id
    intro t ht
    apply matchAmount_none
    intro c hc
    exact good_not_digit (hchars c (ht.subset hc))
  have hcollapse : collapseSpaces x.data = x.data := by
    rw [collapseSpaces, ← hjoin]
    exact collapse_join hw false
  simp only [normalizeMerchantName]
  rw [hlower, htrim, hstrip, hscan1, hscan2, hscan3, hscan4, hcollapse, htrim]

/-! ### Claim C4 (corrected) -/

/-- C4, counterexample to the claim as stated: the normalizer is not
idempotent.  On `"12.05.2020 mastercard spotify"` the first pass removes
the date, exposing the N26 prefix `mastercard` at the start of the
normalized string `"mastercard spotify"`; a second pass then strips that
prefix and returns `"spotify"`. -/
theorem normalize_not_idempotent_counterexample :
    normalizeMerchantName (normalizeMerchantName "12.05.2020 mastercard spotify") ≠
      normalizeMerchantName "12.05.2020 mastercard spotify" := by decide

/-- C4, amended: the merchant-name normalizer is idempotent on every
description made of non-empty lower-case alphabetic words separated by
single spaces that contains none of the remover keywords (N26 prefixes,
`iban`/`bic`, `ref`/`order`/`transaction`); in general idempotence fails
because one removal pass can expose a fresh removable pattern to the
next pass. -/
theorem normalize_idempotent_on_plain_descriptions (x : String)
    (hx : plainDescription x = true) :
    normalizeMerchantName (normalizeMerchantName x) = normalizeMerchantName x := by
  have hx0 := hx
  rw [plainDescription, Bool.and_eq_true, List.all_eq_true, List.all_eq_true] at hx0
  obtain ⟨hw, hkw0⟩ := hx0
  rw [normalize_plain x hx]
  by_cases h3 : 3 < (splitOnSpace x.data).length
  · rw [if_pos h3]
    have hwordsfree : ∀ w ∈ (splitOnSpace x.data).take 3, ∀ c ∈ w, (c == ' ') = false := by
      intro w hwt c hc
      exact good_not_space_beq ((plainWord_parts (hw w (List.mem_of_mem_take hwt))).2 c hc)
    have htake_ne : (splitOnSpace x.data).take 3 ≠ [] := by
      intro hnil
      have hlen := congrArg List.length hnil
      simp only [List.length_take, List.length_nil] at hlen
      omega
    have hsplit3 : splitOnSpace (String.mk (joinSpace ((splitOnSpace x.data).take 3))).data =
        (splitOnSpace x.data).take 3 := by
      show splitOnSpace (joinSpace ((splitOnSpace x.data).take 3)) = _
      exact splitOnSpace_joinSpace hwordsfree htake_ne
    have hplain3 :
        plainDescription (String.mk (joinSpace ((splitOnSpace x.data).take 3))) = true := by
      rw [plainDescription, Bool.and_eq_true, List.all_eq_true, List.all_eq_true]
      constructor
      · intro w hwm
        rw [hsplit3] at hwm
        exact hw w (List.mem_of_mem_take hwm)
      · intro kw hkwm
        rw [Bool.not_eq_true']
        cases hcs : containsSub kw.data
            (String.mk (joinSpace ((splitOnSpace x.data).take 3))).data with
        | false => rfl
        | true =>
          have hx2 : containsSub kw.data x.data = true := by
            rw [← joinSpace_splitOnSpace x.data, joinSpace_take3 h3]
            exact containsSub_append_left hcs
          have hfalse := hkw0 kw hkwm
          rw [Bool.not_eq_true'] at hfalse
          rw [hfalse] at hx2
          exact absurd hx2 (by simp)
    rw [normalize_plain _ hplain3]
    rw [if_neg]
    rw [hsplit3, List.length_take]
    omega
  · rw [if_neg h3, normalize_plain x hx, if_neg h3]

theorem normalize_idempotent_on_plain_descriptions_witness :
    plainDescription "spotify premium family plan" = true ∧
    normalizeMerchantName (normalizeMerchantName "spotify premium family plan") =
      normalizeMerchantName "spotify premium family plan" :=
  ⟨by decide, normalize_idempotent_on_plain_descriptions "spotify premium family plan" (by decide)⟩
